import Mathlib

/-!
Verification of the smtp_gateway protocol core against its specification.

The development shallowly embeds the Rust sources:

- `src/str/mod.rs`: the SMTP line-invariant string type (`SmtpString`,
  `replace_endings_with_crlf`, `RawSmtpStr`).
- `src/connection/command/mod.rs`: the command parser (`parse`) and the
  per-line reply function (`handle`).
- `src/connection/mod.rs`: the per-connection session loop.

Bytes are modelled as `Nat` (US-ASCII code points; 13 is carriage return,
10 is line feed).  Strings are `List Nat`.  All reply texts are written as
explicit byte lists; a comment gives the ASCII reading next to each one.
-/

/-- Predicate for a US-ASCII byte, mirroring the `ascii` crate's validity
check used by `SmtpString::new` (`as_ascii_str` succeeds iff every byte is
at most 0x7F). -/
def isAsciiByte (b : Nat) : Bool := b ≤ 127

/-- Step function of `replace_endings_with_crlf` from `src/str/mod.rs`.
`prev` is the character just before the scan position (`previous` in the
Rust loop; after both insertion branches the Rust code resumes two
characters later with `previous = LineFeed`, which is exactly the
character at the resumption point minus one, so a single left-to-right
scan with a one-character lookbehind is a faithful rendering).  A line
feed not preceded by a carriage return, and a carriage return not
followed by a line feed, are each replaced by the pair 13, 10. -/
def replaceEndingsAux : Option Nat → List Nat → List Nat
  | _, [] => []
  | prev, c :: rest =>
    if c = 10 ∧ prev ≠ some 13 then
      13 :: 10 :: replaceEndingsAux (some 10) rest
    else if c = 13 ∧ rest.head? ≠ some 10 then
      13 :: 10 :: replaceEndingsAux (some 10) rest
    else
      c :: replaceEndingsAux (some c) rest

/-- Model of `replace_endings_with_crlf` (`src/str/mod.rs`, lines 116-153). -/
def replace_endings_with_crlf (s : List Nat) : List Nat :=
  replaceEndingsAux none s

/-- Model of `SmtpString::new` (`src/str/mod.rs`, lines 70-75): the input is
first checked to be US-ASCII (`as_ascii_str`), and only then are the line
endings normalized. A non-ASCII byte makes construction fail (`none`)
without any normalization taking place. -/
def SmtpString.new (s : List Nat) : Option (List Nat) :=
  if s.all isAsciiByte then some (replace_endings_with_crlf s) else none

/-- The buffer capacity `MAX_LEN` of `RawSmtpStr` (`src/str/mod.rs`, line 28). -/
def MAX_LEN : Nat := 150

/-- Model of `RawSmtpStr` (`src/str/mod.rs`): a fixed 150-byte buffer plus
the length of the stored string. -/
structure RawSmtpStr where
  buffer : List Nat
  len : Nat
deriving DecidableEq

/-- Model of `RawSmtpStr::new_zeroed`: buffer filled with the character
`'0'` (byte 48) and length 0. -/
def RawSmtpStr.new_zeroed : RawSmtpStr :=
  ⟨List.replicate MAX_LEN 48, 0⟩

/-- The loop body of `RawSmtpStr::new_from_ascii` (`src/str/mod.rs`, lines
229-267).  Arguments: remaining input, `previous` (the previous source
character), the output buffer, `output_index`, and `len`.  Each branch
writes through `List.set` exactly the cells the Rust code writes and
advances the counters by the same amounts (the in-branch increment plus
the shared increment at the bottom of the loop). -/
def rawLoop : List Nat → Option Nat → List Nat → Nat → Nat → List Nat × Nat
  | [], _, buf, _, len => (buf, len)
  | c :: rest, prev, buf, oi, len =>
    if c = 10 ∧ prev ≠ some 13 then
      rawLoop rest (some c) ((buf.set oi 13).set (oi + 1) c) (oi + 2) (len + 2)
    else if c = 13 ∧ rest.head? ≠ some 10 then
      rawLoop rest (some c) ((buf.set oi c).set (oi + 1) 10) (oi + 2) (len + 2)
    else
      rawLoop rest (some c) (buf.set oi c) (oi + 1) (len + 1)

/-- Model of `RawSmtpStr::new_from_ascii` (`src/str/mod.rs`, lines 217-270).
The leading `assert!(string.len() <= MAX_LEN)` is modelled by returning
`none` (the Rust code panics) when the input is longer than the buffer. -/
def RawSmtpStr.new_from_ascii (s : List Nat) : Option RawSmtpStr :=
  if s.length ≤ MAX_LEN then
    some ⟨(rawLoop s none (List.replicate MAX_LEN 48) 0 0).1,
          (rawLoop s none (List.replicate MAX_LEN 48) 0 0).2⟩
  else none

/-- Model of `RawSmtpStr::as_slice`: the stored string, i.e. the buffer up
to the recorded length. -/
def RawSmtpStr.as_slice (r : RawSmtpStr) : List Nat :=
  r.buffer.take r.len

/-- Pure (buffer-free) rendering of the `new_from_ascii` loop: the sequence
of characters the loop writes, in order.  Unlike `replaceEndingsAux`,
`previous` is always set to the consumed source character, exactly as the
Rust loop does at its bottom. -/
def rawAux : Option Nat → List Nat → List Nat
  | _, [] => []
  | prev, c :: rest =>
    if c = 10 ∧ prev ≠ some 13 then
      13 :: c :: rawAux (some c) rest
    else if c = 13 ∧ rest.head? ≠ some 10 then
      c :: 10 :: rawAux (some c) rest
    else
      c :: rawAux (some c) rest

/-- Write the characters of `out` into `buf` starting at position `i`. -/
def bufWrite : List Nat → Nat → List Nat → List Nat
  | buf, _, [] => buf
  | buf, i, c :: cs => bufWrite (buf.set i c) (i + 1) cs

/-- Decidable scan for the CRLF discipline, with `prev` the character just
before the scan position: every line feed must be immediately preceded by
a carriage return and every carriage return immediately followed by a
line feed. -/
def crlfOnlyAux : Option Nat → List Nat → Bool
  | _, [] => true
  | prev, c :: rest =>
    (if c = 10 then decide (prev = some 13) else true) &&
    ((if c = 13 then decide (rest.head? = some 10) else true) &&
      crlfOnlyAux (some c) rest)

/-- Decidable scan for the CRLF discipline of a whole string: `true` iff
every line feed is immediately preceded by a carriage return and every
carriage return is immediately followed by a line feed. -/
def crlfOnly (l : List Nat) : Bool := crlfOnlyAux none l

example : replace_endings_with_crlf [10, 13] = [13, 10, 13, 10] := by decide

-- The doc example of `SmtpString::new`:
-- "LF\nCR\rLFCR\n\rCRLF\r\nCRLFCRLF\r\n\r\n" normalizes to
-- "LF\r\nCR\r\nLFCR\r\n\r\nCRLF\r\nCRLFCRLF\r\n\r\n".
example :
    replace_endings_with_crlf
      [76, 70, 10, 67, 82, 13, 76, 70, 67, 82, 10, 13, 67, 82, 76, 70, 13, 10,
       67, 82, 76, 70, 67, 82, 76, 70, 13, 10, 13, 10] =
      [76, 70, 13, 10, 67, 82, 13, 10, 76, 70, 67, 82, 13, 10, 13, 10, 67, 82,
       76, 70, 13, 10, 67, 82, 76, 70, 67, 82, 76, 70, 13, 10, 13, 10] := by
  decide

-- Tests from `src/str/test.rs` (those of length at most `MAX_LEN`).
example :
    (RawSmtpStr.new_from_ascii [13]).map RawSmtpStr.as_slice =
      some [13, 10] := by decide
example :
    (RawSmtpStr.new_from_ascii [10, 13]).map RawSmtpStr.as_slice =
      some [13, 10, 13, 10] := by decide
example :
    (RawSmtpStr.new_from_ascii [108, 111, 114, 101, 109, 10]).map
      RawSmtpStr.as_slice = some [108, 111, 114, 101, 109, 13, 10] := by
  decide

/-- Whitespace as tested by Rust's `char::is_ascii_whitespace`, used for the
leading-whitespace scan in `parse`'s `trim` helper: space, tab, line feed,
form feed, carriage return. -/
def isRustWhitespace (b : Nat) : Bool :=
  b = 32 || b = 9 || b = 10 || b = 12 || b = 13

/-- Whitespace as tested by the `ascii` crate's `AsciiChar::is_whitespace`,
used by `AsciiStr::trim_end` in `parse`'s `trim` helper: space, tab, line
feed, carriage return, vertical tab, form feed. -/
def isAsciiCrateWhitespace (b : Nat) : Bool :=
  b = 32 || b = 9 || b = 10 || b = 13 || b = 11 || b = 12

/-- Index of the first byte that is not (Rust-)whitespace; the length of
the string when every byte is whitespace.  Models
`str.find(|c| !c.is_ascii_whitespace()).unwrap_or(str.len())`. -/
def firstNonWsIdx : List Nat → Nat
  | [] => 0
  | b :: rest => if isRustWhitespace b then firstNonWsIdx rest + 1 else 0

/-- Length of the string after removing its trailing run of
(`ascii`-crate-)whitespace; models `str.trim_end().len()`. -/
def trimEndLen : List Nat → Nat
  | [] => 0
  | b :: rest =>
    if trimEndLen rest = 0 ∧ isAsciiCrateWhitespace b then 0
    else trimEndLen rest + 1

/-- Model of the `trim` helper inside `parse`
(`src/connection/command/mod.rs`, lines 96-114): the range (start
inclusive, end exclusive) of the line without leading and trailing
whitespace, or `none` when that range is empty (`end <= start`). -/
def trimRange (s : List Nat) : Option (Nat × Nat) :=
  if trimEndLen s ≤ firstNonWsIdx s then none
  else some (firstNonWsIdx s, trimEndLen s)

/-- Index of the first separator byte — space (32) or dash (45) — or the
length of the string when there is none; models
`command.as_str().split_once([' ', '-'])`. -/
def sepIdx : List Nat → Nat
  | [] => 0
  | b :: rest => if b = 32 || b = 45 then 0 else sepIdx rest + 1

/-- Continuation flag of a command line (`MultiLine` in
`src/connection/command/mod.rs`). -/
inductive MultiLine where
  | LastLine
  | HasNext
deriving DecidableEq

/-- Model of the `split_command` helper inside `parse`
(`src/connection/command/mod.rs`, lines 119-138): the verb range, the
optional text range, and the continuation flag, all relative to the
trimmed string. -/
def split_command (command : List Nat) :
    (Nat × Nat) × Option (Nat × Nat) × MultiLine :=
  let i := sepIdx command
  if i < command.length then
    ((0, i), some (i + 1, command.length),
      if command.getD i 0 = 45 then MultiLine.HasNext else MultiLine.LastLine)
  else
    ((0, command.length), none, MultiLine.LastLine)

/-- Uppercase one byte, as `make_ascii_uppercase` does character-wise. -/
def toUpperByte (b : Nat) : Nat :=
  if 97 ≤ b ∧ b ≤ 122 then b - 32 else b

/-- Uppercase the bytes whose positions lie in `[k + a, k + b)` counting
from `k`; `upperRange` below instantiates `k := 0`. -/
def upperRangeAux : Nat → Nat → Nat → List Nat → List Nat
  | _, _, _, [] => []
  | k, a, b, c :: rest =>
    (if a ≤ k ∧ k < b then toUpperByte c else c) :: upperRangeAux (k + 1) a b rest

/-- Uppercase the bytes of `l` at positions in `[a, b)`; models
`line[verb.clone()].make_ascii_uppercase()`. -/
def upperRange (l : List Nat) (a b : Nat) : List Nat :=
  upperRangeAux 0 a b l

/-- Error type of `parse` (`CommandError` in
`src/connection/command/mod.rs`). -/
inductive CommandError where
  | Empty
  | OnlyWhitespace
deriving DecidableEq

/-- Model of the `Command` struct (`src/connection/command/mod.rs`, lines
180-193): the full line (with the verb range uppercased) and index ranges
into it. -/
structure Command where
  line : List Nat
  trimmed : Nat × Nat
  verb : Nat × Nat
  text : Option (Nat × Nat)
  multiline : MultiLine
deriving DecidableEq

deriving instance DecidableEq for Except

/-- Slice `l` by the range `r` (start inclusive, end exclusive), as Rust's
`&line[range]`. -/
def sliceRange (l : List Nat) (r : Nat × Nat) : List Nat :=
  (l.drop r.1).take (r.2 - r.1)

/-- Model of `Command::verb()`: the verb slice of the stored line. -/
def Command.verbStr (c : Command) : List Nat :=
  sliceRange c.line c.verb

/-- Model of `Command::trimmed()`: the whitespace-stripped slice of the
stored line. -/
def Command.trimmedStr (c : Command) : List Nat :=
  sliceRange c.line c.trimmed

/-- Model of `Command::text()`: the optional argument-text slice. -/
def Command.textStr (c : Command) : Option (List Nat) :=
  c.text.map (sliceRange c.line)

/-- Model of `parse` (`src/connection/command/mod.rs`, lines 140-176):
reject an empty line, trim, split into verb/text/continuation, shift the
ranges back onto the untrimmed line, and uppercase the verb range in
place. -/
def parse (line : List Nat) : Except CommandError Command :=
  if line = [] then Except.error CommandError.Empty
  else
    match trimRange line with
    | none => Except.error CommandError.OnlyWhitespace
    | some (ts, te) =>
      let trimmedStr := (line.drop ts).take (te - ts)
      let res := split_command trimmedStr
      let verb := (res.1.1 + ts, res.1.2 + ts)
      let text := res.2.1.map fun r => (r.1 + ts, r.2 + ts)
      Except.ok
        { line := upperRange line verb.1 verb.2
          trimmed := (ts, te)
          verb := verb
          text := text
          multiline := res.2.2 }

-- Tests from `test_command_parsing` (`src/connection/command/mod.rs`).
-- parse("  foo bar baz bim  \r\n") yields line "  FOO bar baz bim  \r\n",
-- trimmed 2..17, verb 2..5 ("FOO"), text 6..17 ("bar baz bim"), LastLine.
example :
    parse [32, 32, 102, 111, 111, 32, 98, 97, 114, 32, 98, 97, 122, 32, 98,
           105, 109, 32, 32, 13, 10] =
      Except.ok
        { line := [32, 32, 70, 79, 79, 32, 98, 97, 114, 32, 98, 97, 122, 32,
                   98, 105, 109, 32, 32, 13, 10]
          trimmed := (2, 17)
          verb := (2, 5)
          text := some (6, 17)
          multiline := MultiLine.LastLine } := by decide

-- parse("foo\r\n") yields verb 0..3, no text, LastLine.
example :
    parse [102, 111, 111, 13, 10] =
      Except.ok
        { line := [70, 79, 79, 13, 10]
          trimmed := (0, 3)
          verb := (0, 3)
          text := none
          multiline := MultiLine.LastLine } := by decide

-- parse("foo \r\n"): a trailing space still means no text.
example :
    parse [102, 111, 111, 32, 13, 10] =
      Except.ok
        { line := [70, 79, 79, 32, 13, 10]
          trimmed := (0, 3)
          verb := (0, 3)
          text := none
          multiline := MultiLine.LastLine } := by decide

-- parse("foo bar\n"): no CRLF check is performed by the parser itself.
example :
    (parse [102, 111, 111, 32, 98, 97, 114, 10]).map Command.line =
      Except.ok [70, 79, 79, 32, 98, 97, 114, 10] := by decide

-- Multiline detection: "250-first\r\n" has a next line, "250 last\r\n"
-- does not.
example :
    (parse [50, 53, 48, 45, 102, 105, 114, 115, 116, 13, 10]).map
      Command.multiline = Except.ok MultiLine.HasNext := by decide
example :
    (parse [50, 53, 48, 32, 108, 97, 115, 116, 13, 10]).map
      Command.multiline = Except.ok MultiLine.LastLine := by decide

/-- Reason a TCP connection should be closed (`CloseReason` in
`src/connection/mod.rs`; the spec calls the variants `ClientQuit`,
`ImplementationError`, `TimedOut`, `ClientDisconnected`). -/
inductive CloseReason where
  | Quit
  | Error
  | TimedOut
  | ClosedByClient
deriving DecidableEq

/-- Whether the connection should be kept open (`ShouldClose` in
`src/connection/mod.rs`). -/
inductive ShouldClose where
  | Keep
  | Close (reason : CloseReason)
deriving DecidableEq

/-- Whether the line ends with the two bytes 13, 10 (`line.ends_with(CRLF)`). -/
def endsWithCRLF (line : List Nat) : Bool :=
  match line.reverse with
  | 10 :: 13 :: _ => true
  | _ => false

-- Reply fragments, as byte lists.
/-- Bytes of "500 Syntax error - ", the opening of every `err_and_return!`
reply in `src/connection/command/mod.rs`. -/
def err500Head : List Nat :=
  [53, 48, 48, 32, 83, 121, 110, 116, 97, 120, 32, 101, 114, 114, 111, 114,
   32, 45, 32]

/-- Bytes of "no trailing CRLF". -/
def msgNoTrailingCrlf : List Nat :=
  [110, 111, 32, 116, 114, 97, 105, 108, 105, 110, 103, 32, 67, 82, 76, 70]

/-- Bytes of "invalid character". -/
def msgInvalidCharacter : List Nat :=
  [105, 110, 118, 97, 108, 105, 100, 32, 99, 104, 97, 114, 97, 99, 116, 101,
   114]

/-- Bytes of "empty command", the `Display` text of `CommandError::Empty`. -/
def msgEmptyCommand : List Nat :=
  [101, 109, 112, 116, 121, 32, 99, 111, 109, 109, 97, 110, 100]

/-- Bytes of "command consists only of whitespace", the `Display` text of
`CommandError::OnlyWhitespace`. -/
def msgOnlyWhitespace : List Nat :=
  [99, 111, 109, 109, 97, 110, 100, 32, 99, 111, 110, 115, 105, 115, 116,
   115, 32, 111, 110, 108, 121, 32, 111, 102, 32, 119, 104, 105, 116, 101,
   115, 112, 97, 99, 101]

/-- The `Display` text of a `CommandError`, as interpolated into the
`err_and_return!` reply. -/
def CommandError.displayBytes : CommandError → List Nat
  | CommandError.Empty => msgEmptyCommand
  | CommandError.OnlyWhitespace => msgOnlyWhitespace

/-- The full wire form of an `err_and_return!` reply:
"500 Syntax error - ", the error text, and the CRLF appended by
`write_fmt_line!`. -/
def err500Reply (msg : List Nat) : List Nat :=
  err500Head ++ msg ++ [13, 10]

/-- Bytes of "221 Bye" followed by CRLF, the wire form of
`write_line!(write_stream, "221 Bye")`. -/
def byeReply : List Nat :=
  [50, 50, 49, 32, 66, 121, 101, 13, 10]

/-- Bytes of "QUIT", the verb `handle` compares against. -/
def quitVerb : List Nat := [81, 85, 73, 84]

/-- Model of `handle` in `src/connection/command/mod.rs` (lines 37-84): the
list of reply lines written for one received line, in order, and the
resulting keep-or-close directive.  The function replies
"500 Syntax error - no trailing CRLF" when the line does not end in CRLF,
"500 Syntax error - invalid character" when it contains a non-ASCII byte,
"500 Syntax error - " plus the error text when `parse` fails, and
"221 Bye" (closing with `CloseReason::Quit`) when the parsed verb is
"QUIT"; for every other successfully parsed command it writes nothing and
keeps the session open. -/
def handle (line : List Nat) : List (List Nat) × ShouldClose :=
  if endsWithCRLF line = false then
    ([err500Reply msgNoTrailingCrlf], ShouldClose.Keep)
  else if line.all isAsciiByte = false then
    ([err500Reply msgInvalidCharacter], ShouldClose.Keep)
  else
    match parse line with
    | Except.error e => ([err500Reply e.displayBytes], ShouldClose.Keep)
    | Except.ok cmd =>
      if cmd.verbStr = quitVerb then
        ([byeReply], ShouldClose.Close CloseReason.Quit)
      else
        ([], ShouldClose.Keep)

/-- The verb a line is dispatched on, when it survives the whole pipeline
of `handle`: the CRLF check, the ASCII check, and `parse`.  Mirrors the
branch structure of `handle` exactly. -/
def parsedVerb (line : List Nat) : Option (List Nat) :=
  if endsWithCRLF line = false then none
  else if line.all isAsciiByte = false then none
  else
    match parse line with
    | Except.error _ => none
    | Except.ok cmd => some cmd.verbStr

/-- Bytes of "220 example.com SMTP testing service ready" followed by CRLF:
the greeting `write_fmt_line!(write_stream, "220 {DOMAIN} SMTP testing
service ready")` sends on connect (`src/connection/mod.rs`, line 107, with
`DOMAIN = "example.com"` from line 32). -/
def greetingReply : List Nat :=
  [50, 50, 48, 32, 101, 120, 97, 109, 112, 108, 101, 46, 99, 111, 109, 32,
   83, 77, 84, 80, 32, 116, 101, 115, 116, 105, 110, 103, 32, 115, 101, 114,
   118, 105, 99, 101, 32, 114, 101, 97, 100, 121, 13, 10]

/-- One read attempt as seen by the session loop of
`src/connection/mod.rs`: a full line arrived, the client closed the
connection (zero-byte read, `ConnectionAborted`), or `SERVER_TIMEOUT`
elapsed first. -/
inductive ReadEvent where
  | line (bytes : List Nat)
  | disconnect
  | timedOut
deriving DecidableEq

/-- The read-reply loop of `connection::handle`
(`src/connection/mod.rs`, lines 109-116): reads events in order, writes
the replies `handle` produces for each line, and stops at the first close
directive, disconnect, or timeout.  Returns all written reply lines in
order and the close reason (`none` when the event list was exhausted with
the session still open). -/
def sessionLoop : List ReadEvent → List (List Nat) × Option CloseReason
  | [] => ([], none)
  | ReadEvent.disconnect :: _ => ([], some CloseReason.ClosedByClient)
  | ReadEvent.timedOut :: _ => ([], some CloseReason.TimedOut)
  | ReadEvent.line bs :: rest =>
    match handle bs with
    | (rs, ShouldClose.Close r) => (rs, some r)
    | (rs, ShouldClose.Keep) =>
      (rs ++ (sessionLoop rest).1, (sessionLoop rest).2)

/-- Model of `connection::handle` (`src/connection/mod.rs`, lines 46-120):
the greeting is written unconditionally before any read, then the loop
runs.  Returns every line written to the client, in order, and the close
reason. -/
def sessionRun (events : List ReadEvent) : List (List Nat) × Option CloseReason :=
  (greetingReply :: (sessionLoop events).1, (sessionLoop events).2)

-- Sanity checks of the pipeline.
-- "FOO\r\n" parses fine but is answered with nothing at all.
example : handle [70, 79, 79, 13, 10] = ([], ShouldClose.Keep) := by decide
-- "QUIT\r\n" and "quit\r\n" get "221 Bye" and close the session.
example :
    handle [81, 85, 73, 84, 13, 10] =
      ([byeReply], ShouldClose.Close CloseReason.Quit) := by decide
example :
    handle [113, 117, 105, 116, 13, 10] =
      ([byeReply], ShouldClose.Close CloseReason.Quit) := by decide
-- "FOO" without CRLF: syntax error reply, session kept.
example :
    handle [70, 79, 79] =
      ([err500Reply msgNoTrailingCrlf], ShouldClose.Keep) := by decide
-- "  \r\n": whitespace-only, syntax error reply, session kept.
example :
    handle [32, 32, 13, 10] =
      ([err500Reply msgOnlyWhitespace], ShouldClose.Keep) := by decide

/-! Claim theorems: greeting, silent fall-through, and ASCII rejection. -/

/-- Claim C1.  The claim says every line the client sends is answered with
exactly one textual reply before the next line is read, regardless of the
line's verb.  The code violates this: a successfully parsed line whose
verb is not "QUIT" produces no reply at all.  This theorem evaluates the
session at the failing input: the client sends "FOO\r\n" and then
"NOOP\r\n"; both lines are read (the loop continues past each) and the
server writes nothing beyond the greeting. -/
theorem claim_C1_session_silent_on_unrecognized_lines :
    sessionRun
      [ReadEvent.line [70, 79, 79, 13, 10],
       ReadEvent.line [78, 79, 79, 80, 13, 10]] =
      ([greetingReply], none) := by decide

/-- Claim C2.  The claim says a successfully parsed line with an
unrecognized verb is answered with "500 Command not recognized".  The
code violates this: `handle` on the line "FOO\r\n" (bytes 70, 79, 79, 13,
10) writes no reply whatsoever — the reply text exists only in
`commands.rs`, a file that is never declared as a module nor called. -/
theorem claim_C2_no_reply_for_unrecognized_verb :
    handle [70, 79, 79, 13, 10] = ([], ShouldClose.Keep) := by decide

/-- Claim C3, counterexample.  The claim says the greeting is
"220 example.com SMTP service ready" followed by CRLF; the code sends
"220 example.com SMTP testing service ready" followed by CRLF (note
"testing").  The session with no client input sends exactly the actual
greeting, which differs from the claimed byte sequence. -/
theorem claim_C3_greeting_counterexample :
    sessionRun [] = ([greetingReply], none) ∧
    greetingReply ≠
      [50, 50, 48, 32, 101, 120, 97, 109, 112, 108, 101, 46, 99, 111, 109,
       32, 83, 77, 84, 80, 32, 115, 101, 114, 118, 105, 99, 101, 32, 114,
       101, 97, 100, 121, 13, 10] := by decide

/-- Claim C3, amended.  Upon accepting a connection, before reading any
client input, the server unconditionally sends the greeting line
"220 example.com SMTP testing service ready" followed by CRLF: whatever
the client does, the first line written in the session is exactly that
byte sequence. -/
theorem claim_C3_greeting_amended (events : List ReadEvent) :
    (sessionRun events).1.head? = some greetingReply ∧
    greetingReply =
      [50, 50, 48, 32, 101, 120, 97, 109, 112, 108, 101, 46, 99, 111, 109,
       32, 83, 77, 84, 80, 32, 116, 101, 115, 116, 105, 110, 103, 32, 115,
       101, 114, 118, 105, 99, 101, 32, 114, 101, 97, 100, 121, 13, 10] :=
  ⟨rfl, rfl⟩

/-- Claim C6.  `SmtpString::new` fails if and only if the input contains a
byte greater than 0x7F, regardless of its line-ending content (the
condition does not mention carriage returns or line feeds); the ASCII
check happens before normalization and a rejected input is returned
untouched by normalization, as the definition of `SmtpString.new`
shows. -/
theorem claim_C6_ascii_rejection (s : List Nat) :
    SmtpString.new s = none ↔ ∃ b ∈ s, 127 < b := by
  unfold SmtpString.new
  by_cases h : s.all isAsciiByte
  · simp only [h, if_true]
    constructor
    · intro hc
      exact absurd hc (by simp)
    · rintro ⟨b, hb, hgt⟩
      have hle := List.all_eq_true.mp h b hb
      simp only [isAsciiByte, decide_eq_true_eq] at hle
      exact absurd hgt (by omega)
  · simp only [h, if_false]
    constructor
    · intro _
      rw [List.all_eq_true] at h
      push_neg at h
      obtain ⟨b, hb, hnb⟩ := h
      refine ⟨b, hb, ?_⟩
      simp only [isAsciiByte, ne_eq, decide_eq_true_eq] at hnb
      omega
    · intro _
      rfl

/-! Helper lemmas about whitespace and `parse` on degenerate lines. -/

/-- Every Rust-whitespace byte is also whitespace for the `ascii` crate. -/
lemma asciiCrateWs_of_rustWs {b : Nat} (h : isRustWhitespace b = true) :
    isAsciiCrateWhitespace b = true := by
  simp only [isRustWhitespace, Bool.or_eq_true, decide_eq_true_eq] at h
  simp only [isAsciiCrateWhitespace, Bool.or_eq_true, decide_eq_true_eq]
  omega

/-- On a string made only of Rust-whitespace, `trim_end` removes
everything. -/
lemma trimEndLen_eq_zero {s : List Nat}
    (h : ∀ b ∈ s, isRustWhitespace b = true) : trimEndLen s = 0 := by
  induction s with
  | nil => rfl
  | cons b rest ih =>
    have hrest : trimEndLen rest = 0 := ih fun x hx => h x (List.mem_cons_of_mem _ hx)
    have hb : isAsciiCrateWhitespace b = true :=
      asciiCrateWs_of_rustWs (h b (List.mem_cons_self _ _))
    simp [trimEndLen, hrest, hb]

/-- `parse` fails on every line that is empty or consists only of
(Rust-)whitespace: the empty line is rejected as `Empty`, and otherwise
the trimmed range is empty, which is rejected as `OnlyWhitespace`. -/
lemma parse_error_of_all_ws {s : List Nat}
    (h : s.all isRustWhitespace = true) : ∃ e, parse s = Except.error e := by
  by_cases hnil : s = []
  · exact ⟨CommandError.Empty, by simp [parse, hnil]⟩
  · refine ⟨CommandError.OnlyWhitespace, ?_⟩
    have hz : trimEndLen s = 0 := trimEndLen_eq_zero (List.all_eq_true.mp h)
    have ht : trimRange s = none := by
      simp [trimRange, hz]
    simp [parse, hnil, ht]

/-- Claim C5.  For every received line that lacks a trailing CRLF,
contains a non-ASCII byte, or is empty or whitespace-only, `handle`
writes exactly one reply, that reply starts with the bytes of
"500 Syntax error - ", and the directive is `Keep`: the session stays
open, nothing closes the connection, and no error escalates. -/
theorem claim_C5_protocol_violations_recovered (line : List Nat)
    (h : endsWithCRLF line = false ∨ (∃ b ∈ line, 127 < b) ∨
      line.all isRustWhitespace = true) :
    ∃ rest, handle line = ([err500Head ++ rest], ShouldClose.Keep) := by
  by_cases h1 : endsWithCRLF line = false
  · exact ⟨msgNoTrailingCrlf ++ [13, 10], by simp [handle, h1, err500Reply]⟩
  · rcases h with h | h | h
    · exact absurd h h1
    · have h2 : line.all isAsciiByte = false := by
        obtain ⟨b, hb, hgt⟩ := h
        rw [Bool.eq_false_iff, ne_eq, List.all_eq_true]
        intro hall
        have := hall b hb
        simp only [isAsciiByte, decide_eq_true_eq] at this
        omega
      exact ⟨msgInvalidCharacter ++ [13, 10], by simp [handle, h1, h2, err500Reply]⟩
    · have h2 : line.all isAsciiByte = true := by
        rw [List.all_eq_true] at h ⊢
        intro x hx
        have := h x hx
        simp only [isRustWhitespace, Bool.or_eq_true, decide_eq_true_eq] at this
        simp only [isAsciiByte, decide_eq_true_eq]
        omega
      obtain ⟨e, he⟩ := parse_error_of_all_ws h
      exact ⟨e.displayBytes ++ [13, 10], by simp [handle, h1, h2, he, err500Reply]⟩

/-- Witness for claim C5: the whitespace-only line "  \r\n" (which also
exercises the parse-error branch) is answered with a single
"500 Syntax error - " reply and a kept session. -/
theorem claim_C5_witness :
    ∃ rest, handle [32, 32, 13, 10] = ([err500Head ++ rest], ShouldClose.Keep) :=
  claim_C5_protocol_violations_recovered [32, 32, 13, 10]
    (Or.inr (Or.inr (by decide)))

/-! Helper lemmas for the verb-emptiness analysis of `parse`. -/

/-- Dropping commutes with ranged uppercasing, shifting the position
counter. -/
lemma upperRangeAux_drop :
    ∀ (l : List Nat) (k a b n : Nat),
      (upperRangeAux k a b l).drop n = upperRangeAux (k + n) a b (l.drop n) := by
  intro l
  induction l with
  | nil => intro k a b n; simp [upperRangeAux]
  | cons c rest ih =>
    intro k a b n
    cases n with
    | zero => simp [upperRangeAux]
    | succ m =>
      simp only [upperRangeAux, List.drop_succ_cons]
      rw [ih]
      congr 1
      omega

/-- Taking commutes with ranged uppercasing. -/
lemma upperRangeAux_take :
    ∀ (l : List Nat) (k a b n : Nat),
      (upperRangeAux k a b l).take n = upperRangeAux k a b (l.take n) := by
  intro l
  induction l with
  | nil => intro k a b n; simp [upperRangeAux]
  | cons c rest ih =>
    intro k a b n
    cases n with
    | zero => simp [upperRangeAux]
    | succ m => simp only [upperRangeAux, List.take_succ_cons, ih]

/-- Taking a positive count preserves the head. -/
lemma head?_take_pos (l : List Nat) (n : Nat) (h : 0 < n) :
    (l.take n).head? = l.head? := by
  cases l with
  | nil => simp
  | cons c rest =>
    cases n with
    | zero => omega
    | succ m => simp

/-- The head of a dropped list is indexing into the original. -/
lemma head?_drop_eq (l : List Nat) (n : Nat) : (l.drop n).head? = l[n]? := by
  induction l generalizing n with
  | nil => simp
  | cons c rest ih =>
    cases n with
    | zero => simp
    | succ m =>
      rw [List.drop_succ_cons, List.getElem?_cons_succ]
      exact ih m

/-- The byte at the first-non-whitespace index is not whitespace. -/
lemma firstNonWsIdx_not_ws :
    ∀ (s : List Nat) (c : Nat), s[firstNonWsIdx s]? = some c →
      isRustWhitespace c = false := by
  intro s
  induction s with
  | nil => intro c hc; simp at hc
  | cons b rest ih =>
    intro c hc
    by_cases h : isRustWhitespace b
    · rw [firstNonWsIdx, if_pos h, List.getElem?_cons_succ] at hc
      exact ih c hc
    · rw [firstNonWsIdx, if_neg h, List.getElem?_cons_zero] at hc
      cases hc
      exact Bool.not_eq_true _ ▸ (by simpa using h)

/-- The trimmed end never exceeds the length. -/
lemma trimEndLen_le_length : ∀ s : List Nat, trimEndLen s ≤ s.length := by
  intro s
  induction s with
  | nil => simp [trimEndLen]
  | cons b rest ih =>
    by_cases h : trimEndLen rest = 0 ∧ isAsciiCrateWhitespace b = true
    · simp [trimEndLen, if_pos h]
    · rw [trimEndLen, if_neg h]
      simpa using ih

/-- Uppercasing a byte yields the dash byte only for the dash byte
itself. -/
lemma toUpperByte_eq_45 {c : Nat} (h : toUpperByte c = 45) : c = 45 := by
  unfold toUpperByte at h
  split at h <;> omega

/-- Ranged uppercasing of an empty list is empty, and conversely. -/
lemma upperRangeAux_eq_nil_iff {k a b : Nat} {l : List Nat} :
    upperRangeAux k a b l = [] ↔ l = [] := by
  cases l with
  | nil => simp [upperRangeAux]
  | cons c rest => simp [upperRangeAux]

/-- Unfolding equation of `upperRangeAux` on a cons cell. -/
lemma upperRangeAux_cons (k a b c : Nat) (rest : List Nat) :
    upperRangeAux k a b (c :: rest) =
      (if a ≤ k ∧ k < b then toUpperByte c else c) ::
        upperRangeAux (k + 1) a b rest := rfl

/-- Unfolding equation of `sepIdx` on a cons cell. -/
lemma sepIdx_cons (b : Nat) (rest : List Nat) :
    sepIdx (b :: rest) = if b = 32 || b = 45 then 0 else sepIdx rest + 1 := rfl

/-- Claim C4, counterexample.  The claim says the verb of every
successfully parsed Command is non-empty; but `parse` succeeds on the
line "-\r\n" (bytes 45, 13, 10) — a line that is neither empty nor
whitespace-only — and the resulting Command's verb range is empty, so
`verb()` yields the empty string. -/
theorem claim_C4_counterexample :
    parse [45, 13, 10] =
      Except.ok
        { line := [45, 13, 10], trimmed := (0, 1), verb := (0, 0),
          text := some (1, 1), multiline := MultiLine.HasNext } ∧
    Command.verbStr
        { line := [45, 13, 10], trimmed := (0, 1), verb := (0, 0),
          text := some (1, 1), multiline := MultiLine.HasNext } = [] := by
  decide

/-- Ranged uppercasing with an empty range is the identity. -/
lemma upperRangeAux_ge :
    ∀ (l : List Nat) (k a b : Nat), b ≤ a → upperRangeAux k a b l = l := by
  intro l
  induction l with
  | nil => intro k a b _; rfl
  | cons c rest ih =>
    intro k a b hba
    rw [upperRangeAux_cons, if_neg (by omega), ih (k + 1) a b hba]

/-- Claim C4, amended.  Parsing fails (with `Empty` or `OnlyWhitespace`)
for every line that is empty or consists only of whitespace, and only a
failed parse prevents Command construction; on a successful parse the
verb is empty exactly when the whitespace-trimmed line begins with the
dash separator (byte 45), and is non-empty in every other case. -/
theorem claim_C4_amended (line : List Nat) :
    (line.all isRustWhitespace = true → ∃ e, parse line = Except.error e) ∧
    (∀ cmd, parse line = Except.ok cmd →
      (Command.verbStr cmd = [] ↔ (Command.trimmedStr cmd).head? = some 45)) := by
  constructor
  · exact parse_error_of_all_ws
  intro cmd hp
  by_cases hnil : line = []
  · rw [parse, if_pos hnil] at hp
    cases hp
  by_cases hle : trimEndLen line ≤ firstNonWsIdx line
  · have htr : trimRange line = none := by rw [trimRange, if_pos hle]
    simp [parse, hnil, htr] at hp
  have htr : trimRange line = some (firstNonWsIdx line, trimEndLen line) := by
    rw [trimRange, if_neg hle]
  simp [parse, hnil, htr] at hp
  subst hp
  have hlt : firstNonWsIdx line < trimEndLen line := by omega
  have hteL : trimEndLen line ≤ line.length := trimEndLen_le_length line
  have hTlen0 :
      (List.take (trimEndLen line - firstNonWsIdx line)
        (List.drop (firstNonWsIdx line) line)).length =
      trimEndLen line - firstNonWsIdx line := by
    rw [List.length_take, List.length_drop]
    omega
  obtain ⟨c0, T', hT⟩ :
      ∃ c0 T', List.take (trimEndLen line - firstNonWsIdx line)
        (List.drop (firstNonWsIdx line) line) = c0 :: T' := by
    cases hx : List.take (trimEndLen line - firstNonWsIdx line)
        (List.drop (firstNonWsIdx line) line) with
    | nil =>
      rw [hx] at hTlen0
      simp only [List.length_nil] at hTlen0
      omega
    | cons a b => exact ⟨a, b, rfl⟩
  have hc0 : (line)[firstNonWsIdx line]? = some c0 := by
    have h1 := congrArg List.head? hT
    rw [head?_take_pos _ _ (by omega), head?_drop_eq] at h1
    simpa using h1
  have hc0ne32 : c0 ≠ 32 := by
    intro h
    subst h
    have := firstNonWsIdx_not_ws line 32 hc0
    simp [isRustWhitespace] at this
  obtain ⟨rest0, hdrop⟩ :
      ∃ rest0, List.drop (firstNonWsIdx line) line = c0 :: rest0 := by
    cases hdrop : List.drop (firstNonWsIdx line) line with
    | nil =>
      rw [hdrop] at hT
      simp at hT
    | cons d rest0 =>
      rw [hdrop] at hT
      have hsucc : trimEndLen line - firstNonWsIdx line =
          (trimEndLen line - firstNonWsIdx line - 1) + 1 := by omega
      rw [hsucc, List.take_succ_cons] at hT
      injection hT with h1 _
      exact ⟨rest0, by rw [h1]⟩
  rw [hT]
  dsimp only [Command.verbStr, Command.trimmedStr, sliceRange]
  obtain ⟨v2, hsc1, hv2iff⟩ :
      ∃ v2, (split_command (c0 :: T')).1 = (0, v2) ∧
        (v2 = 0 ↔ (c0 = 32 ∨ c0 = 45)) := by
    by_cases hsep : c0 = 32 ∨ c0 = 45
    · have hzero : sepIdx (c0 :: T') = 0 := by
        rw [sepIdx_cons, if_pos]
        simp only [Bool.or_eq_true, decide_eq_true_eq]
        exact hsep
      refine ⟨0, ?_, by simp [hsep]⟩
      rw [split_command]
      simp [hzero]
    · have hpos : sepIdx (c0 :: T') = sepIdx T' + 1 := by
        rw [sepIdx_cons, if_neg]
        simp only [Bool.or_eq_true, decide_eq_true_eq]
        exact hsep
      by_cases hi : sepIdx (c0 :: T') < (c0 :: T').length
      · refine ⟨sepIdx T' + 1, ?_, by simp [hsep]⟩
        rw [hpos] at hi
        rw [split_command]
        simp only [hpos]
        rw [if_pos hi]
      · refine ⟨(c0 :: T').length, ?_, by simp [hsep]⟩
        rw [split_command]
        rw [if_neg hi]
  rw [hsc1]
  dsimp only
  simp only [upperRange, Nat.zero_add, Nat.add_sub_cancel]
  rw [upperRangeAux_drop, upperRangeAux_take, upperRangeAux_take]
  simp only [Nat.zero_add]
  rw [hT, hdrop, upperRangeAux_cons]
  constructor
  · intro hL
    rw [upperRangeAux_eq_nil_iff] at hL
    have hv0 : v2 = 0 := by
      by_contra hne
      obtain ⟨m, rfl⟩ : ∃ m, v2 = m + 1 := ⟨v2 - 1, by omega⟩
      simp [List.take_succ_cons] at hL
    subst hv0
    have hc45 : c0 = 45 := by
      rcases hv2iff.mp rfl with h | h
      · exact absurd h hc0ne32
      · exact h
    simp [hc45]
  · intro hR
    simp only [List.head?_cons, Option.some.injEq] at hR
    have hv0 : v2 = 0 := by
      by_contra hne
      rw [if_pos ⟨le_refl _, by omega⟩] at hR
      exact hne (hv2iff.mpr (Or.inr (toUpperByte_eq_45 hR)))
    subst hv0
    simp [upperRangeAux_eq_nil_iff]

/-- Witness for claim C4: a whitespace-only line fails to parse, and the
successfully parsed line "FOO\r\n" has the non-empty verb / non-dash-head
equivalence. -/
theorem claim_C4_witness :
    (∃ e, parse [32, 9, 13, 10] = Except.error e) ∧
    (Command.verbStr
        { line := [70, 79, 79, 13, 10], trimmed := (0, 3), verb := (0, 3),
          text := none, multiline := MultiLine.LastLine } = [] ↔
      (Command.trimmedStr
        { line := [70, 79, 79, 13, 10], trimmed := (0, 3), verb := (0, 3),
          text := none, multiline := MultiLine.LastLine }).head? = some 45) :=
  ⟨(claim_C4_amended [32, 9, 13, 10]).1 (by decide),
   (claim_C4_amended [70, 79, 79, 13, 10]).2 _ (by decide)⟩

/-! Helper lemmas about `handle` and the session loop for the QUIT claim. -/

/-- When the whole pipeline succeeds with verb "QUIT", `handle` replies
"221 Bye" and closes with `CloseReason.Quit`. -/
lemma handle_quit (bs : List Nat) (h : parsedVerb bs = some quitVerb) :
    handle bs = ([byeReply], ShouldClose.Close CloseReason.Quit) := by
  unfold parsedVerb at h
  by_cases h1 : endsWithCRLF bs = false
  · rw [if_pos h1] at h
    cases h
  rw [if_neg h1] at h
  by_cases h2 : bs.all isAsciiByte = false
  · rw [if_pos h2] at h
    cases h
  rw [if_neg h2] at h
  cases hp : parse bs with
  | error e =>
    rw [hp] at h
    cases h
  | ok cmd =>
    rw [hp] at h
    simp only [Option.some.injEq] at h
    rw [handle, if_neg h1, if_neg h2]
    simp only [hp]
    rw [if_pos h]

/-- A line whose pipeline does not produce the verb "QUIT" never closes
the session. -/
lemma handle_keep_of_not_quit (bs : List Nat)
    (h : parsedVerb bs ≠ some quitVerb) :
    (handle bs).2 = ShouldClose.Keep := by
  by_cases h1 : endsWithCRLF bs = false
  · rw [handle, if_pos h1]
  · by_cases h2 : bs.all isAsciiByte = false
    · rw [handle, if_neg h1, if_pos h2]
    · cases hp : parse bs with
      | error e =>
        rw [handle, if_neg h1, if_neg h2]
        simp only [hp]
      | ok cmd =>
        have hv : cmd.verbStr ≠ quitVerb := by
          intro hv
          apply h
          unfold parsedVerb
          rw [if_neg h1, if_neg h2]
          simp only [hp, hv]
        rw [handle, if_neg h1, if_neg h2]
        simp only [hp]
        rw [if_neg hv]

/-- The only way `handle` produces a close directive is the QUIT branch:
the reason is `Quit`, the sole reply is "221 Bye", and the parsed verb
was "QUIT". -/
lemma handle_close_inv (bs : List Nat) (r : CloseReason)
    (h : (handle bs).2 = ShouldClose.Close r) :
    parsedVerb bs = some quitVerb ∧ r = CloseReason.Quit ∧
      (handle bs).1 = [byeReply] := by
  by_cases hq : parsedVerb bs = some quitVerb
  · have hh := handle_quit bs hq
    rw [hh] at h
    have h' : ShouldClose.Close CloseReason.Quit = ShouldClose.Close r := h
    injection h' with h''
    exact ⟨hq, h''.symm, by rw [hh]⟩
  · have hk := handle_keep_of_not_quit bs hq
    rw [hk] at h
    exact absurd h (by simp)

/-- Replies of the session loop when the first QUIT line is reached after
a prefix of kept lines. -/
lemma sessionLoop_quit (pre : List (List Nat)) (bs : List Nat)
    (post : List ReadEvent) (hq : parsedVerb bs = some quitVerb)
    (hkeep : ∀ l ∈ pre, (handle l).2 = ShouldClose.Keep) :
    sessionLoop (pre.map ReadEvent.line ++ ReadEvent.line bs :: post) =
      ((pre.map fun l => (handle l).1).flatten ++ [byeReply],
        some CloseReason.Quit) := by
  induction pre with
  | nil =>
    rw [List.map_nil, List.nil_append, sessionLoop, handle_quit bs hq]
    simp
  | cons l pre' ih =>
    have hl : (handle l).2 = ShouldClose.Keep :=
      hkeep l (List.mem_cons_self _ _)
    rcases hhl : handle l with ⟨rs, sc⟩
    have hsc : sc = ShouldClose.Keep := by
      rw [hhl] at hl
      exact hl
    subst hsc
    rw [List.map_cons, List.cons_append, sessionLoop]
    simp only [hhl]
    rw [ih fun x hx => hkeep x (List.mem_cons_of_mem _ hx)]
    simp only [List.map_cons, List.flatten_cons, hhl]
    simp [List.append_assoc]

/-- Claim C9.  In every session where, after any prefix of lines that keep
the session open, the client sends a line whose parsed verb is "QUIT" (in
any letter case, since the parser uppercases the verb), the server's
output is the greeting, the prefix's replies, and then exactly "221 Bye"
followed by CRLF, and the session closes recording `CloseReason.Quit`
(the reason the spec calls `ClientQuit`); moreover QUIT is the only
dispatched verb that produces a close directive: every close produced by
`handle` comes from a line whose parsed verb is "QUIT", closes with
`Quit`, and replies exactly "221 Bye". -/
theorem claim_C9_quit_closes (pre : List (List Nat)) (bs : List Nat)
    (post : List ReadEvent) (hq : parsedVerb bs = some quitVerb)
    (hkeep : ∀ l ∈ pre, (handle l).2 = ShouldClose.Keep) :
    sessionRun (pre.map ReadEvent.line ++ ReadEvent.line bs :: post) =
      (greetingReply ::
        ((pre.map fun l => (handle l).1).flatten ++ [byeReply]),
        some CloseReason.Quit) ∧
    (∀ l r, (handle l).2 = ShouldClose.Close r →
      parsedVerb l = some quitVerb ∧ r = CloseReason.Quit ∧
        (handle l).1 = [byeReply]) := by
  constructor
  · unfold sessionRun
    rw [sessionLoop_quit pre bs post hq hkeep]
  · exact handle_close_inv

/-- Witness for claim C9: the session "NOOP\r\n" then "quit\r\n" replies
with the greeting and "221 Bye" only (NOOP is answered with nothing by the
current code) and closes with `Quit`; and the QUIT line itself is a
closing line with the required shape. -/
theorem claim_C9_witness :
    (sessionRun [ReadEvent.line [78, 79, 79, 80, 13, 10],
        ReadEvent.line [113, 117, 105, 116, 13, 10]] =
      ([greetingReply, byeReply], some CloseReason.Quit)) ∧
    (parsedVerb [81, 85, 73, 84, 13, 10] = some quitVerb ∧
      CloseReason.Quit = CloseReason.Quit ∧
      (handle [81, 85, 73, 84, 13, 10]).1 = [byeReply]) :=
  ⟨(claim_C9_quit_closes [[78, 79, 79, 80, 13, 10]]
      [113, 117, 105, 116, 13, 10] [] (by decide) (by decide)).1,
   (claim_C9_quit_closes [] [81, 85, 73, 84, 13, 10] [] (by decide)
      (by decide)).2 [81, 85, 73, 84, 13, 10] CloseReason.Quit (by decide)⟩


/-! Helper lemmas for the CRLF-totality and idempotence claims. -/

/-- Unfolding equation of `replaceEndingsAux` on a cons cell. -/
lemma replaceEndingsAux_cons (prev : Option Nat) (c : Nat) (rest : List Nat) :
    replaceEndingsAux prev (c :: rest) =
      if c = 10 ∧ prev ≠ some 13 then
        13 :: 10 :: replaceEndingsAux (some 10) rest
      else if c = 13 ∧ rest.head? ≠ some 10 then
        13 :: 10 :: replaceEndingsAux (some 10) rest
      else
        c :: replaceEndingsAux (some c) rest := rfl

/-- Unfolding equation of `crlfOnlyAux` on a cons cell. -/
lemma crlfOnlyAux_cons (prev : Option Nat) (c : Nat) (rest : List Nat) :
    crlfOnlyAux prev (c :: rest) =
      ((if c = 10 then decide (prev = some 13) else true) &&
       ((if c = 13 then decide (rest.head? = some 10) else true) &&
        crlfOnlyAux (some c) rest)) := rfl

/-- Decomposition of a successful scan step. -/
lemma crlfOnlyAux_cons_iff (prev : Option Nat) (c : Nat) (rest : List Nat) :
    crlfOnlyAux prev (c :: rest) = true ↔
      (c = 10 → prev = some 13) ∧ (c = 13 → rest.head? = some 10) ∧
        crlfOnlyAux (some c) rest = true := by
  rw [crlfOnlyAux_cons]
  by_cases h10 : c = 10 <;> by_cases h13 : c = 13 <;>
    simp [h10, h13]

/-- The output of the normalization scan always satisfies the CRLF
discipline relative to the same previous-character context; in
particular (with no previous character) the full output is
CRLF-disciplined. -/
lemma crlfOnlyAux_replaceEndingsAux :
    ∀ (s : List Nat) (prev : Option Nat),
      crlfOnlyAux prev (replaceEndingsAux prev s) = true := by
  intro s
  induction s with
  | nil => intro prev; rfl
  | cons c rest ih =>
    intro prev
    rw [replaceEndingsAux_cons]
    by_cases hb1 : c = 10 ∧ prev ≠ some 13
    · rw [if_pos hb1]
      rw [crlfOnlyAux_cons_iff]
      refine ⟨by simp, by simp, ?_⟩
      rw [crlfOnlyAux_cons_iff]
      exact ⟨fun _ => rfl, by simp, ih (some 10)⟩
    · rw [if_neg hb1]
      by_cases hb2 : c = 13 ∧ rest.head? ≠ some 10
      · rw [if_pos hb2]
        rw [crlfOnlyAux_cons_iff]
        refine ⟨by simp, by simp, ?_⟩
        rw [crlfOnlyAux_cons_iff]
        exact ⟨fun _ => rfl, by simp, ih (some 10)⟩
      · rw [if_neg hb2]
        rw [crlfOnlyAux_cons_iff]
        refine ⟨?_, ?_, ih (some c)⟩
        · intro hc10
          subst hc10
          by_contra hne
          exact hb1 ⟨rfl, hne⟩
        · intro hc13
          subst hc13
          have hhd : rest.head? = some 10 := by
            by_contra hne
            exact hb2 ⟨rfl, hne⟩
          match rest, hhd with
          | 10 :: rest2, _ =>
            rw [replaceEndingsAux_cons, if_neg (by simp), if_neg (by simp)]
            rfl

/-- A CRLF-disciplined string (relative to the same previous-character
context) is left unchanged by the normalization scan. -/
lemma replaceEndingsAux_id :
    ∀ (s : List Nat) (prev : Option Nat),
      crlfOnlyAux prev s = true → replaceEndingsAux prev s = s := by
  intro s
  induction s with
  | nil => intro prev _; rfl
  | cons c rest ih =>
    intro prev h
    rw [crlfOnlyAux_cons_iff] at h
    obtain ⟨hA, hB, hrec⟩ := h
    rw [replaceEndingsAux_cons]
    by_cases hc10 : c = 10
    · subst hc10
      rw [if_neg (by simp [hA rfl]), if_neg (by simp), ih (some 10) hrec]
    · by_cases hc13 : c = 13
      · subst hc13
        rw [if_neg (by simp), if_neg (by simp [hB rfl]), ih (some 13) hrec]
      · rw [if_neg (by simp [hc10]), if_neg (by simp [hc13]),
          ih (some c) hrec]

/-- A successful scan pins down the neighbourhood of every line feed and
carriage return: a line feed is preceded by a carriage return (or sits
at position zero with a pending carriage-return context), and a carriage
return is followed by a line feed. -/
lemma crlfOnlyAux_spec :
    ∀ (l : List Nat) (p : Option Nat), crlfOnlyAux p l = true →
      (∀ i, l[i]? = some 10 →
        (∃ j, i = j + 1 ∧ l[j]? = some 13) ∨ (i = 0 ∧ p = some 13)) ∧
      (∀ i, l[i]? = some 13 → l[i + 1]? = some 10) := by
  intro l
  induction l with
  | nil =>
    intro p _
    constructor <;> intro i hi <;> simp at hi
  | cons c rest ih =>
    intro p h
    rw [crlfOnlyAux_cons_iff] at h
    obtain ⟨hA, hB, hrec⟩ := h
    obtain ⟨ih1, ih2⟩ := ih (some c) hrec
    constructor
    · intro i hi
      cases i with
      | zero =>
        rw [List.getElem?_cons_zero, Option.some.injEq] at hi
        exact Or.inr ⟨rfl, hA hi⟩
      | succ k =>
        rw [List.getElem?_cons_succ] at hi
        rcases ih1 k hi with ⟨j, hj, hjv⟩ | ⟨hk0, hc13⟩
        · refine Or.inl ⟨j + 1, by omega, ?_⟩
          rw [List.getElem?_cons_succ]
          exact hjv
        · rw [Option.some.injEq] at hc13
          refine Or.inl ⟨0, by omega, ?_⟩
          rw [List.getElem?_cons_zero, hc13]
    · intro i hi
      cases i with
      | zero =>
        rw [List.getElem?_cons_zero, Option.some.injEq] at hi
        subst hi
        rw [List.getElem?_cons_succ]
        have := hB rfl
        cases rest with
        | nil => simp at this
        | cons d r2 =>
          rw [List.head?_cons, Option.some.injEq] at this
          rw [List.getElem?_cons_zero, this]
      | succ k =>
        rw [List.getElem?_cons_succ] at hi
        rw [List.getElem?_cons_succ]
        exact ih2 k hi

/-- Claim C7.  For every ASCII string, in the normalized output every
line feed (byte 10) is immediately preceded by a carriage return (byte
13) and every carriage return is immediately followed by a line feed;
and the two independent violations of "\n\r" are repaired independently:
normalizing the bytes 10, 13 yields 13, 10, 13, 10 (i.e. "\r\n\r\n"). -/
theorem claim_C7_crlf_totality (s : List Nat) (_h : ∀ b ∈ s, b ≤ 127) :
    ((∀ i, (replace_endings_with_crlf s)[i]? = some 10 →
        ∃ j, i = j + 1 ∧ (replace_endings_with_crlf s)[j]? = some 13) ∧
      (∀ i, (replace_endings_with_crlf s)[i]? = some 13 →
        (replace_endings_with_crlf s)[i + 1]? = some 10)) ∧
    replace_endings_with_crlf [10, 13] = [13, 10, 13, 10] := by
  refine ⟨?_, by decide⟩
  have hc : crlfOnlyAux none (replaceEndingsAux none s) = true :=
    crlfOnlyAux_replaceEndingsAux s none
  obtain ⟨h1, h2⟩ := crlfOnlyAux_spec (replaceEndingsAux none s) none hc
  refine ⟨?_, h2⟩
  intro i hi
  rcases h1 i hi with hok | ⟨_, hnone⟩
  · exact hok
  · cases hnone

/-- Witness for claim C7, at the concrete ASCII input "\n\r". -/
theorem claim_C7_witness :
    ((∀ i, (replace_endings_with_crlf [10, 13])[i]? = some 10 →
        ∃ j, i = j + 1 ∧ (replace_endings_with_crlf [10, 13])[j]? = some 13) ∧
      (∀ i, (replace_endings_with_crlf [10, 13])[i]? = some 13 →
        (replace_endings_with_crlf [10, 13])[i + 1]? = some 10)) ∧
    replace_endings_with_crlf [10, 13] = [13, 10, 13, 10] :=
  claim_C7_crlf_totality [10, 13] (by decide)

/-- Claim C8.  Normalization is idempotent on every ASCII string, and a
string already using only well-formed CRLF line endings (every line feed
preceded by a carriage return, every carriage return followed by a line
feed — the `crlfOnly` scan) is returned unchanged. -/
theorem claim_C8_idempotent (s : List Nat) (_h : ∀ b ∈ s, b ≤ 127) :
    replace_endings_with_crlf (replace_endings_with_crlf s) =
      replace_endings_with_crlf s ∧
    (crlfOnly s = true → replace_endings_with_crlf s = s) := by
  constructor
  · exact replaceEndingsAux_id (replaceEndingsAux none s) none
      (crlfOnlyAux_replaceEndingsAux s none)
  · intro hs
    exact replaceEndingsAux_id s none hs

/-- Witness for claim C8, at the ASCII inputs "H\n" (normalized twice)
and "Hi\r\n" (already CRLF-correct, returned unchanged). -/
theorem claim_C8_witness :
    replace_endings_with_crlf (replace_endings_with_crlf [72, 10]) =
      replace_endings_with_crlf [72, 10] ∧
    replace_endings_with_crlf [72, 105, 13, 10] = [72, 105, 13, 10] :=
  ⟨(claim_C8_idempotent [72, 10] (by decide)).1,
   (claim_C8_idempotent [72, 105, 13, 10] (by decide)).2 (by decide)⟩

/-! Helper lemmas for the equivalence of the two normalizers. -/

/-- Unfolding equation of `rawAux` on a cons cell. -/
lemma rawAux_cons (prev : Option Nat) (c : Nat) (rest : List Nat) :
    rawAux prev (c :: rest) =
      if c = 10 ∧ prev ≠ some 13 then 13 :: c :: rawAux (some c) rest
      else if c = 13 ∧ rest.head? ≠ some 10 then c :: 10 :: rawAux (some c) rest
      else c :: rawAux (some c) rest := rfl

/-- Unfolding equation of `rawLoop` on a cons cell. -/
lemma rawLoop_cons (c : Nat) (rest : List Nat) (prev : Option Nat)
    (buf : List Nat) (oi len : Nat) :
    rawLoop (c :: rest) prev buf oi len =
      if c = 10 ∧ prev ≠ some 13 then
        rawLoop rest (some c) ((buf.set oi 13).set (oi + 1) c) (oi + 2) (len + 2)
      else if c = 13 ∧ rest.head? ≠ some 10 then
        rawLoop rest (some c) ((buf.set oi c).set (oi + 1) 10) (oi + 2) (len + 2)
      else
        rawLoop rest (some c) (buf.set oi c) (oi + 1) (len + 1) := rfl

/-- Unfolding equation of `bufWrite` on a cons cell. -/
lemma bufWrite_cons (buf : List Nat) (i c : Nat) (cs : List Nat) :
    bufWrite buf i (c :: cs) = bufWrite (buf.set i c) (i + 1) cs := rfl

/-- The heap (`Cow`) normalizer and the stack normalizer emit the same
character sequence.  The two `previous` trackers may disagree in exactly
one situation: right after a carriage return was completed to a pair, the
heap version records the inserted line feed while the stack version
records the source carriage return; since in that situation the next
source character is known not to be a line feed, the disagreement never
influences a branch. -/
lemma replaceEndingsAux_eq_rawAux :
    ∀ (s : List Nat) (pc pr : Option Nat),
      (pc = pr ∨ (pc = some 10 ∧ pr = some 13 ∧ s.head? ≠ some 10)) →
      replaceEndingsAux pc s = rawAux pr s := by
  intro s
  induction s with
  | nil => intro pc pr _; rfl
  | cons c rest ih =>
    intro pc pr hrel
    rw [replaceEndingsAux_cons, rawAux_cons]
    rcases hrel with rfl | ⟨hpc, hpr, hh⟩
    · by_cases hb1 : c = 10 ∧ pc ≠ some 13
      · rw [if_pos hb1, if_pos hb1, hb1.1]
        rw [ih (some 10) (some 10) (Or.inl rfl)]
      · rw [if_neg hb1, if_neg hb1]
        by_cases hb2 : c = 13 ∧ rest.head? ≠ some 10
        · rw [if_pos hb2, if_pos hb2, hb2.1]
          rw [ih (some 10) (some 13) (Or.inr ⟨rfl, rfl, hb2.2⟩)]
        · rw [if_neg hb2, if_neg hb2]
          rw [ih (some c) (some c) (Or.inl rfl)]
    · subst hpc
      subst hpr
      rw [List.head?_cons] at hh
      have hc10 : c ≠ 10 := fun h => hh (by rw [h])
      rw [if_neg (show ¬(c = 10 ∧ some 10 ≠ some 13) from fun h => hc10 h.1),
        if_neg (show ¬(c = 10 ∧ some 13 ≠ some 13) from fun h => h.2 rfl)]
      by_cases hb2 : c = 13 ∧ rest.head? ≠ some 10
      · rw [if_pos hb2, if_pos hb2, hb2.1]
        rw [ih (some 10) (some 13) (Or.inr ⟨rfl, rfl, hb2.2⟩)]
      · rw [if_neg hb2, if_neg hb2]
        rw [ih (some c) (some c) (Or.inl rfl)]

/-- The buffer-filling loop writes exactly the character sequence of
`rawAux` into the buffer, starting at the output index, and adds its
length to the running length. -/
lemma rawLoop_eq :
    ∀ (s : List Nat) (prev : Option Nat) (buf : List Nat) (oi len : Nat),
      rawLoop s prev buf oi len =
        (bufWrite buf oi (rawAux prev s), len + (rawAux prev s).length) := by
  intro s
  induction s with
  | nil =>
    intro prev buf oi len
    rfl
  | cons c rest ih =>
    intro prev buf oi len
    rw [rawLoop_cons, rawAux_cons]
    by_cases hb1 : c = 10 ∧ prev ≠ some 13
    · rw [if_pos hb1, if_pos hb1, ih, bufWrite_cons, bufWrite_cons]
      rw [Prod.mk.injEq]
      exact ⟨rfl, by simp only [List.length_cons]; omega⟩
    · rw [if_neg hb1, if_neg hb1]
      by_cases hb2 : c = 13 ∧ rest.head? ≠ some 10
      · rw [if_pos hb2, if_pos hb2, ih, bufWrite_cons, bufWrite_cons]
        rw [Prod.mk.injEq]
        exact ⟨rfl, by simp only [List.length_cons]; omega⟩
      · rw [if_neg hb2, if_neg hb2, ih, bufWrite_cons]
        rw [Prod.mk.injEq]
        exact ⟨rfl, by simp only [List.length_cons]; omega⟩

/-- Taking one past an in-range set position splits off the new cell. -/
lemma set_take_succ :
    ∀ (buf : List Nat) (i c : Nat), i < buf.length →
      (buf.set i c).take (i + 1) = buf.take i ++ [c] := by
  intro buf
  induction buf with
  | nil => intro i c h; simp at h
  | cons b rest ih =>
    intro i c h
    cases i with
    | zero => simp
    | succ k =>
      rw [List.set_cons_succ, List.take_succ_cons, List.take_succ_cons,
        ih k c (by simpa using Nat.lt_of_succ_lt_succ h)]
      rfl

/-- Reading back what `bufWrite` wrote: taking up to the end of the
written region yields the untouched region before the start index
followed by the written characters. -/
lemma bufWrite_take :
    ∀ (out buf : List Nat) (i : Nat), i + out.length ≤ buf.length →
      (bufWrite buf i out).take (i + out.length) = buf.take i ++ out := by
  intro out
  induction out with
  | nil =>
    intro buf i h
    simp [bufWrite]
  | cons c cs ih =>
    intro buf i h
    rw [bufWrite_cons]
    simp only [List.length_cons] at h
    have h' : (i + 1) + cs.length ≤ (buf.set i c).length := by
      rw [List.length_set]
      omega
    have hidx : i + (c :: cs).length = (i + 1) + cs.length := by
      simp only [List.length_cons]
      omega
    rw [hidx, ih (buf.set i c) (i + 1) h',
      set_take_succ buf i c (by omega)]
    simp

/-- Normalization never shortens a string. -/
lemma length_le_replaceEndingsAux :
    ∀ (s : List Nat) (prev : Option Nat),
      s.length ≤ (replaceEndingsAux prev s).length := by
  intro s
  induction s with
  | nil => intro prev; simp
  | cons c rest ih =>
    intro prev
    rw [replaceEndingsAux_cons]
    by_cases hb1 : c = 10 ∧ prev ≠ some 13
    · rw [if_pos hb1]
      have := ih (some 10)
      simp only [List.length_cons]
      omega
    · rw [if_neg hb1]
      by_cases hb2 : c = 13 ∧ rest.head? ≠ some 10
      · rw [if_pos hb2]
        have := ih (some 10)
        simp only [List.length_cons]
        omega
      · rw [if_neg hb2]
        have := ih (some c)
        simp only [List.length_cons]
        omega

/-- Claim C10.  The two line-ending normalizers are equivalent: for every
ASCII string whose normalized form fits in the `MAX_LEN` (150-byte)
buffer, `RawSmtpStr::new_from_ascii` succeeds and its stored string (the
buffer up to the recorded length) is exactly the output of
`replace_endings_with_crlf` on the same input. -/
theorem claim_C10_normalizers_equivalent (s : List Nat)
    (_h : ∀ b ∈ s, b ≤ 127)
    (hlen : (replace_endings_with_crlf s).length ≤ MAX_LEN) :
    ∃ r, RawSmtpStr.new_from_ascii s = some r ∧
      r.as_slice = replace_endings_with_crlf s := by
  have hraw : rawAux none s = replaceEndingsAux none s :=
    (replaceEndingsAux_eq_rawAux s none none (Or.inl rfl)).symm
  have hsl : s.length ≤ MAX_LEN :=
    le_trans (length_le_replaceEndingsAux s none) hlen
  rw [RawSmtpStr.new_from_ascii, if_pos hsl]
  refine ⟨_, rfl, ?_⟩
  rw [RawSmtpStr.as_slice]
  dsimp only
  rw [rawLoop_eq]
  dsimp only
  rw [hraw]
  have hlen' :
      0 + (replaceEndingsAux none s).length ≤
        (List.replicate MAX_LEN 48).length := by
    rw [List.length_replicate]
    exact Nat.zero_add _ ▸ hlen
  have hwr := bufWrite_take (replaceEndingsAux none s)
    (List.replicate MAX_LEN 48) 0 hlen'
  simpa using hwr

/-- Witness for claim C10, at the ASCII input "hi\n" (bytes 104, 105,
10), whose normalized form "hi\r\n" has length 4. -/
theorem claim_C10_witness :
    ∃ r, RawSmtpStr.new_from_ascii [104, 105, 10] = some r ∧
      r.as_slice = replace_endings_with_crlf [104, 105, 10] :=
  claim_C10_normalizers_equivalent [104, 105, 10] (by decide) (by decide)

-- Cross-checks of the modelled write path: `write_fmt_line!` and
-- `write_line!` pass their text through the normalizer before writing,
-- which is the identity on the reply constants used above, so modelling
-- a written reply as the literal bytes plus CRLF is faithful.
example : SmtpString.new greetingReply = some greetingReply := by decide
example : SmtpString.new byeReply = some byeReply := by decide
example :
    SmtpString.new (err500Reply msgNoTrailingCrlf) =
      some (err500Reply msgNoTrailingCrlf) := by decide
